import Mathlib

/-!
Shallow embedding of the Bengali RAG pipeline (10ms_rag).

Embedded components and their sources:
* text normalization (`cleanBengaliText` and its stages) —
  src/lib/utils/text-processing.utils.ts
* sentence splitting and chunk building (`splitIntoSentences`,
  `chunkText`, `chunkTextWithPages`) —
  src/lib/services/text-chunking.service.ts
* context retrieval with the Bengali keyword fallback
  (`retrieveContext`, `performBengaliKeywordFallback`, `queryVectors`,
  `isBengali`, `extractBengaliKeywords`) — ContextRetrievalService,
  PineconeService and src/lib/utils/language.utils.ts
* RAG evaluation scoring (`groundednessScore`, `relevanceScore`,
  `evaluateRAG` context routing) —
  src/lib/services/rag-evaluation.service.ts
* cosine similarity (`cosineSimilarity`) — src/app/api/chat/route.ts
  and src/app/api/evaluate/route.ts
* page-image conversion (`convertPdfToImagesRanges`) —
  src/lib/services/pdf-processor.service.ts and src/lib/pdf-ocr-utils.ts
* index-readiness polling loops — the create-index handler bundled with
  src/app/api/evaluate/route.ts and src/app/api/recreate-index/route.ts

Strings are embedded as `List Char` (wrapped into `String` at the API
surface).  Each JavaScript `String.replace` call with a global regular
expression is embedded as one step function fed to a shared
left-to-right scanner (`scanStepApply`) that reproduces the
leftmost-match, greedy, non-overlapping scan of the JS regex engine;
the scanner carries a fuel argument (initialized to the string length,
which every step strictly decreases) so that all definitions are
structurally recursive and kernel-reducible.
JavaScript numbers are embedded as `ℚ` where only field arithmetic and
rounding occur, and as `ℝ` where `Math.sqrt` is involved.
-/

/-- Characters matched by the JavaScript regex class `\s` (which is also
the set stripped by `String.prototype.trim`). -/
def isJsWs (c : Char) : Bool :=
  c.val = 32 || c.val = 9 || c.val = 10 || c.val = 11 || c.val = 12 || c.val = 13 ||
  c.val = 0xA0 || c.val = 0x1680 || (0x2000 ≤ c.val && c.val ≤ 0x200A) ||
  c.val = 0x2028 || c.val = 0x2029 || c.val = 0x202F || c.val = 0x205F ||
  c.val = 0x3000 || c.val = 0xFEFF

/-- Helper: the tail of a list is no longer than the list. -/
theorem length_tail_le {α : Type} (l : List α) : l.tail.length ≤ l.length := by
  cases l <;> simp

/-- Helper: `dropWhile` never lengthens a list. -/
theorem length_dropWhile_le {α : Type} (p : α → Bool) (l : List α) :
    (l.dropWhile p).length ≤ l.length := by
  induction l with
  | nil => simp
  | cons c rest ih =>
    by_cases h : p c
    · simpa [List.dropWhile, h] using Nat.le_succ_of_le ih
    · simp [List.dropWhile, h]

/-- Embedding of `Math.round(x * 100) / 100` (JS `Math.round` rounds
half toward positive infinity), the 2-decimal rounding used for all
returned scores (`roundToDecimals` of the math utils, also written
inline in the route handlers). -/
def jsRound2 (x : ℚ) : ℚ :=
  ((⌊x * 100 + 1 / 2⌋ : ℤ) : ℚ) / 100

/-- Retrieval quality metrics (`retrievalMetrics`). -/
structure RetrievalMetrics where
  totalRetrieved : Nat
  aboveThreshold : Nat
  averageSimilarity : ℚ
deriving DecidableEq, Repr

/-- Result shape of `PineconeService.queryVectors`
(`PineconeQueryResult`). -/
structure PineconeQueryResult where
  contexts : List String
  searchScores : List ℚ
  retrievalMetrics : RetrievalMetrics
deriving DecidableEq, Repr

/-- One raw vector-index match: `score` and `metadata?.content` may each
be absent. -/
structure PineconeMatch where
  score : Option ℚ
  content : Option String
deriving DecidableEq, Repr

/-- The filter `match.score && match.score > threshold` (a score of 0 is
falsy in JS, so it never passes). -/
def scoreOk (threshold : ℚ) (m : PineconeMatch) : Bool :=
  match m.score with
  | some s => decide (s ≠ 0) && decide (threshold < s)
  | none => false

/-- The filter `content && content.length > 0`. -/
def contentOk (c : Option String) : Bool :=
  match c with
  | some str => decide (0 < str.length)
  | none => false

/-- Embedding of `PineconeService.queryVectors` applied to the raw
matches the index returned: threshold filtering, content extraction and
metric computation. -/
def queryVectors (ms : List PineconeMatch) (threshold : ℚ) : PineconeQueryResult :=
  let allScores := ms.map fun m => m.score.getD 0
  let passing := ms.filter (scoreOk threshold)
  let contexts := ((passing.map fun m => m.content).filter contentOk).map fun c => c.getD ""
  { contexts := contexts
    searchScores := passing.map fun m => m.score.getD 0
    retrievalMetrics :=
      { totalRetrieved := ms.length
        aboveThreshold := contexts.length
        averageSimilarity :=
          jsRound2 (if allScores.isEmpty then 0 else allScores.sum / allScores.length) } }

/-- The all-zero empty result returned from the catch blocks of
`ContextRetrievalService`. -/
def emptyRetrievalResult : PineconeQueryResult :=
  { contexts := []
    searchScores := []
    retrievalMetrics := { totalRetrieved := 0, aboveThreshold := 0, averageSimilarity := 0 } }

/-- Characters of the Bengali Unicode block `[ঀ-৿]`. -/
def isBengaliChar (c : Char) : Bool :=
  0x980 ≤ c.val && c.val ≤ 0x9FF

/-- Embedding of `isBengali` from src/lib/utils/language.utils.ts:
Bengali characters must account for more than 30% of the
non-whitespace characters (and `match` returning `null` when there is
no Bengali character yields `false`). -/
def isBengali (s : String) : Bool :=
  let bengaliCount := (s.data.filter isBengaliChar).length
  let totalChars := (s.data.filter fun c => !isJsWs c).length
  if bengaliCount = 0 then false
  else decide ((3 : ℚ) / 10 < (bengaliCount : ℚ) / (totalChars : ℚ))

/-- Fuel-based extraction of the maximal runs matched by
`/[ঀ-৿]+/g`. -/
def extractBengaliRunsF : Nat → List Char → List (List Char)
  | _, [] => []
  | 0, _ => []
  | fuel + 1, c :: rest =>
    if isBengaliChar c then
      (c :: rest.takeWhile isBengaliChar) ::
        extractBengaliRunsF fuel (rest.dropWhile isBengaliChar)
    else
      extractBengaliRunsF fuel rest

/-- Embedding of `extractBengaliKeywords` from
src/lib/utils/language.utils.ts. -/
def extractBengaliKeywords (s : String) : List String :=
  (extractBengaliRunsF s.data.length s.data).map String.mk

/-- Embedding of `Array.from(new Set(arr))`: duplicates removed, first
occurrences kept in order. -/
def jsSetDedupAux (seen : List String) : List String → List String
  | [] => []
  | c :: rest =>
    if seen.contains c then jsSetDedupAux seen rest
    else c :: jsSetDedupAux (c :: seen) rest

/-- Embedding of `Array.from(new Set(arr))`. -/
def jsSetDedup (l : List String) : List String :=
  jsSetDedupAux [] l

/-- Embedding of `ctx.includes(w)`. -/
def jsIncludes (ctx w : String) : Bool :=
  decide (w.data <:+: ctx.data)

/-- Embedding of `ContextRetrievalService.performBengaliKeywordFallback`.
The vector index is an external collaborator, embedded as the outcome
function `search` from the requested `topK` to the raw match list (or a
thrown error); the fallback re-queries with `topK * 2` and floor 0.05,
collects the broad candidates containing a Bengali keyword, and — when
there is at least one such candidate — returns all de-duplicated broad
candidates; its catch block returns the all-zero empty result. -/
def performBengaliKeywordFallback (search : Nat → Except String (List PineconeMatch))
    (query : String) (topK : Nat) : PineconeQueryResult :=
  let bengaliWords := extractBengaliKeywords query
  match search (topK * 2) with
  | .error _ => emptyRetrievalResult
  | .ok broadMatches =>
    let broad := queryVectors broadMatches (1 / 20)
    let keywordMatches := broad.contexts.filter fun ctx =>
      bengaliWords.any fun w => jsIncludes ctx w
    if keywordMatches.isEmpty then broad
    else
      let combined := jsSetDedup (broad.contexts ++ keywordMatches)
      { contexts := combined
        searchScores := broad.searchScores
        retrievalMetrics :=
          { broad.retrievalMetrics with aboveThreshold := combined.length } }

/-- Embedding of `ContextRetrievalService.retrieveContext`.  The
embedding call is an external collaborator, embedded as its outcome
`embedOutcome`; a thrown embedding or primary-query error reaches the
catch block, which returns the all-zero empty result. -/
def retrieveContext (embedOutcome : Except String (List ℚ))
    (search : Nat → Except String (List PineconeMatch)) (query : String)
    (topK : Nat) : PineconeQueryResult :=
  match embedOutcome with
  | .error _ => emptyRetrievalResult
  | .ok _ =>
    match search topK with
    | .error _ => emptyRetrievalResult
    | .ok ms =>
      let result := queryVectors ms (1 / 10)
      if result.contexts.length < 2 ∧ isBengali query then
        let enhanced := performBengaliKeywordFallback search query topK
        if enhanced.contexts.length > result.contexts.length then enhanced else result
      else result

/-- The primary pass of `retrieveContext` (embedding + `topK`-query at
floor 0.1, with errors degraded to the empty result). -/
def primaryPass (embedOutcome : Except String (List ℚ))
    (search : Nat → Except String (List PineconeMatch)) (topK : Nat) :
    PineconeQueryResult :=
  match embedOutcome with
  | .error _ => emptyRetrievalResult
  | .ok _ =>
    match search topK with
    | .error _ => emptyRetrievalResult
    | .ok ms => queryVectors ms (1 / 10)

/-- The contexts the broad fallback query (pool `topK * 2`, floor 0.05)
yields. -/
def broadPassContexts (search : Nat → Except String (List PineconeMatch))
    (topK : Nat) : List String :=
  match search (topK * 2) with
  | .error _ => []
  | .ok ms => (queryVectors ms (1 / 20)).contexts

/-- The fallback contexts as claim C1 describes them: keep only broad
candidates containing a Bengali keyword of the query, merge them with
the primary contexts, remove duplicates. -/
def c1ClaimedFallbackContexts (primaryCtxs broadCtxs : List String)
    (words : List String) : List String :=
  jsSetDedup (primaryCtxs ++ broadCtxs.filter fun ctx => words.any fun w => jsIncludes ctx w)

/-- Concrete vector-index outcomes for the C1 counterexample: the
primary pool has no passing context; the broad pool (floor 0.05) adds
one keyword-bearing and one keyword-free context. -/
def c1Search (n : Nat) : Except String (List PineconeMatch) :=
  if n = 10 then .ok []
  else if n = 20 then
    .ok [⟨some (3 / 50), some "কx"⟩, ⟨some (3 / 50), some "beta"⟩]
  else .error "unexpected topK"

/-- Elements of `jsSetDedupAux` come from the scanned list. -/
theorem jsSetDedupAux_subset (l : List String) :
    ∀ seen c, c ∈ jsSetDedupAux seen l → c ∈ l := by
  induction l with
  | nil => intro seen c hc; cases hc
  | cons a rest ih =>
    intro seen c hc
    simp only [jsSetDedupAux] at hc
    split at hc
    · exact List.mem_cons_of_mem a (ih _ _ hc)
    · rcases List.mem_cons.mp hc with hc | hc
      · exact hc ▸ List.mem_cons_self a rest
      · exact List.mem_cons_of_mem a (ih _ _ hc)

/-- De-duplication removes nothing new: `jsSetDedup l ⊆ l`. -/
theorem jsSetDedup_subset (l : List String) (c : String) (hc : c ∈ jsSetDedup l) : c ∈ l :=
  jsSetDedupAux_subset l [] c hc

/-- Every context of the fallback result comes from the broad
(`topK * 2`, floor 0.05) query. -/
theorem performBengaliKeywordFallback_contexts_sub
    (search : Nat → Except String (List PineconeMatch)) (query : String) (topK : Nat) :
    ∀ c ∈ (performBengaliKeywordFallback search query topK).contexts,
      c ∈ broadPassContexts search topK := by
  intro c hc
  simp only [performBengaliKeywordFallback, broadPassContexts] at hc ⊢
  cases hb : search (topK * 2) with
  | error msg =>
    rw [hb] at hc
    simp [emptyRetrievalResult] at hc
  | ok ms =>
    rw [hb] at hc
    show c ∈ (queryVectors ms (1 / 20)).contexts
    rw [apply_ite PineconeQueryResult.contexts] at hc
    split at hc
    · exact hc
    · dsimp only at hc
      rcases List.mem_append.mp (jsSetDedup_subset _ _ hc) with h | h
      · exact h
      · exact List.mem_of_mem_filter h

/-- C1 counterexample: with an empty primary pass and a Bengali query,
the adopted fallback result contains the context "beta", which contains
no Bengali keyword of the query and is absent from the merge the claim
describes (primary contexts plus keyword-bearing candidates,
de-duplicated) — the fallback keeps all broad candidates, not only the
keyword-bearing ones. -/
theorem retrieveContext_fallback_counterexample :
    "beta" ∈ (retrieveContext (.ok []) c1Search "ক" 10).contexts ∧
    (∀ w ∈ extractBengaliKeywords "ক", jsIncludes "beta" w = false) ∧
    "beta" ∉ c1ClaimedFallbackContexts (primaryPass (.ok []) c1Search 10).contexts
      (broadPassContexts c1Search 10) (extractBengaliKeywords "ক") ∧
    (retrieveContext (.ok []) c1Search "ক" 10).contexts.length >
      (primaryPass (.ok []) c1Search 10).contexts.length := by
  have hben : isBengali "ক" = true := by
    have hb : ("ক".data.filter isBengaliChar).length = 1 := by decide
    have ht : ("ক".data.filter fun c => !isJsWs c).length = 1 := by decide
    simp only [isBengali, hb, ht]
    norm_num
  have hkw : extractBengaliKeywords "ক" = ["ক"] := by decide
  have hs1 : scoreOk (1 / 20) ⟨some (3 / 50), some "কx"⟩ = true := by
    simp only [scoreOk]
    norm_num
  have hs2 : scoreOk (1 / 20) ⟨some (3 / 50), some "beta"⟩ = true := by
    simp only [scoreOk]
    norm_num
  have hc1 : contentOk (some "কx") = true := by decide
  have hc2 : contentOk (some "beta") = true := by decide
  have hbroad : (queryVectors [⟨some (3 / 50), some "কx"⟩,
      ⟨some (3 / 50), some "beta"⟩] (1 / 20)).contexts = ["কx", "beta"] := by
    simp only [queryVectors, List.filter, hs1, hs2, hc1, hc2, List.map]
    rfl
  have hinc1 : jsIncludes "কx" "ক" = true := by decide
  have hinc2 : jsIncludes "beta" "ক" = false := by decide
  have h20 : c1Search (10 * 2) = .ok [⟨some (3 / 50), some "কx"⟩,
      ⟨some (3 / 50), some "beta"⟩] := rfl
  have hfb : (performBengaliKeywordFallback c1Search "ক" 10).contexts = ["কx", "beta"] := by
    simp only [performBengaliKeywordFallback, hkw]
    rw [h20]
    simp only [hbroad, List.filter, List.any, hinc1, hinc2]
    rfl
  have hprim : (primaryPass (.ok []) c1Search 10).contexts = [] := rfl
  have hres : (retrieveContext (.ok []) c1Search "ক" 10).contexts = ["কx", "beta"] := by
    simp only [retrieveContext]
    have h10 : c1Search 10 = .ok [] := rfl
    rw [h10]
    have hq : (queryVectors [] (1 / 10)).contexts = [] := rfl
    have hcond1 : (queryVectors [] (1 / 10)).contexts.length < 2 ∧ isBengali "ক" = true := by
      rw [hq, hben]
      exact ⟨by norm_num, rfl⟩
    have hcond2 : (performBengaliKeywordFallback c1Search "ক" 10).contexts.length >
        (queryVectors [] (1 / 10)).contexts.length := by
      rw [hq, hfb]
      norm_num
    dsimp only
    rw [if_pos hcond1, if_pos hcond2]
    exact hfb
  have hbp : broadPassContexts c1Search 10 = ["কx", "beta"] := by
    simp only [broadPassContexts]
    rw [h20]
    exact hbroad
  refine ⟨?_, ?_, ?_, ?_⟩
  · rw [hres]
    simp
  · rw [hkw]
    intro w hw
    rw [List.mem_singleton.mp hw]
    exact hinc2
  · rw [hprim, hbp, hkw]
    intro hmem
    have := jsSetDedup_subset _ _ hmem
    simp only [List.nil_append, List.mem_filter] at this
    rcases this with ⟨hthis, hany⟩
    simp [hinc2] at hany
  · rw [hres, hprim]
    norm_num

/-- C1 amended: the retriever returns the primary pass unchanged unless
the primary pass has fewer than 2 contexts and the query is
Bengali-dominant and the fallback result (broad re-query with pool
`topK * 2` and floor 0.05, de-duplicated whole when at least one broad
candidate carries a Bengali keyword) has strictly more contexts, in
which case the fallback result — whose every context comes from the
broad query, keyword-bearing or not, with primary contexts not
re-added — is returned. -/
theorem retrieveContext_fallback_amended (e : Except String (List ℚ))
    (search : Nat → Except String (List PineconeMatch)) (query : String) (topK : Nat) :
    retrieveContext e search query topK = primaryPass e search topK ∨
    ((primaryPass e search topK).contexts.length < 2 ∧ isBengali query = true ∧
      (performBengaliKeywordFallback search query topK).contexts.length >
        (primaryPass e search topK).contexts.length ∧
      retrieveContext e search query topK = performBengaliKeywordFallback search query topK ∧
      ∀ c ∈ (performBengaliKeywordFallback search query topK).contexts,
        c ∈ broadPassContexts search topK) := by
  cases e with
  | error msg => exact Or.inl rfl
  | ok emb =>
    cases hs : search topK with
    | error msg =>
      left
      simp [retrieveContext, primaryPass, hs]
    | ok ms =>
      have hp : primaryPass (.ok emb) search topK = queryVectors ms (1 / 10) := by
        simp [primaryPass, hs]
      simp only [retrieveContext, hs, hp]
      by_cases h1 : (queryVectors ms (1 / 10)).contexts.length < 2 ∧ isBengali query
      · rw [if_pos h1]
        by_cases h2 : (performBengaliKeywordFallback search query topK).contexts.length >
            (queryVectors ms (1 / 10)).contexts.length
        · rw [if_pos h2]
          exact Or.inr ⟨h1.1, h1.2, h2, rfl,
            performBengaliKeywordFallback_contexts_sub search query topK⟩
        · rw [if_neg h2]
          exact Or.inl rfl
      · rw [if_neg h1]
        exact Or.inl rfl

/-- Concrete vector-index outcomes for the C6 counterexample: the
primary query succeeds with one context, the broad fallback query
throws. -/
def c6Search (n : Nat) : Except String (List PineconeMatch) :=
  if n = 10 then .ok [⟨some (1 / 2), some "কq"⟩] else .error "index down"

/-- C6 counterexample: the broad fallback query (a vector-index
operation inside context retrieval) throws, yet `retrieveContext`
returns the non-empty primary result, not the all-zero empty result the
claim requires for every embedding or index error. -/
theorem retrieveContext_error_nonempty_counterexample :
    c6Search (10 * 2) = .error "index down" ∧
    (retrieveContext (.ok []) c6Search "ক" 10).contexts = ["কq"] ∧
    retrieveContext (.ok []) c6Search "ক" 10 ≠ emptyRetrievalResult := by
  have hben : isBengali "ক" = true := by
    have hb : ("ক".data.filter isBengaliChar).length = 1 := by decide
    have ht : ("ক".data.filter fun c => !isJsWs c).length = 1 := by decide
    simp only [isBengali, hb, ht]
    norm_num
  have hs1 : scoreOk (1 / 10) ⟨some (1 / 2), some "কq"⟩ = true := by
    simp only [scoreOk]
    norm_num
  have hc1 : contentOk (some "কq") = true := by decide
  have hq : (queryVectors [⟨some (1 / 2), some "কq"⟩] (1 / 10)).contexts = ["কq"] := by
    simp only [queryVectors, List.filter, hs1, hc1, List.map]
    rfl
  have hfb : (performBengaliKeywordFallback c6Search "ক" 10).contexts = [] := by
    simp only [performBengaliKeywordFallback]
    have h20 : c6Search (10 * 2) = .error "index down" := rfl
    rw [h20]
    rfl
  have hres : (retrieveContext (.ok []) c6Search "ক" 10).contexts = ["কq"] := by
    simp only [retrieveContext]
    have h10 : c6Search 10 = .ok [⟨some (1 / 2), some "কq"⟩] := rfl
    rw [h10]
    have hcond1 : (queryVectors [⟨some (1 / 2), some "কq"⟩] (1 / 10)).contexts.length < 2 ∧
        isBengali "ক" = true := by
      rw [hq, hben]
      exact ⟨by norm_num, rfl⟩
    have hcond2 : ¬ ((performBengaliKeywordFallback c6Search "ক" 10).contexts.length >
        (queryVectors [⟨some (1 / 2), some "কq"⟩] (1 / 10)).contexts.length) := by
      rw [hq, hfb]
      norm_num
    dsimp only
    rw [if_pos hcond1, if_neg hcond2]
    exact hq
  refine ⟨rfl, hres, fun h => ?_⟩
  rw [h] at hres
  simp [emptyRetrievalResult] at hres

/-- C6 amended: an error of the embedding call or of the primary vector
query degrades `retrieveContext` to the all-zero empty result; an error
of the fallback's broad query is caught inside the fallback, after
which the primary result is returned unchanged — in no case does an
error propagate (the embedding is total by construction). -/
theorem retrieveContext_error_behavior (emb : List ℚ)
    (search : Nat → Except String (List PineconeMatch)) (query : String)
    (topK : Nat) (msg : String) :
    retrieveContext (.error msg) search query topK = emptyRetrievalResult ∧
    (search topK = .error msg →
      retrieveContext (.ok emb) search query topK = emptyRetrievalResult) ∧
    (∀ ms, search topK = .ok ms → search (topK * 2) = .error msg →
      retrieveContext (.ok emb) search query topK = queryVectors ms (1 / 10)) := by
  refine ⟨rfl, ?_, ?_⟩
  · intro hs
    simp [retrieveContext, hs]
  · intro ms hs hb
    simp only [retrieveContext, hs]
    have hfb : performBengaliKeywordFallback search query topK = emptyRetrievalResult := by
      simp [performBengaliKeywordFallback, hb]
    by_cases h1 : (queryVectors ms (1 / 10)).contexts.length < 2 ∧ isBengali query = true
    · dsimp only
      rw [if_pos h1, hfb, if_neg]
      simp [emptyRetrievalResult]
    · dsimp only
      rw [if_neg h1]

/-- Witness for C6: in the concrete broad-query-error scenario the
amended theorem returns the primary pass. -/
theorem retrieveContext_error_behavior_witness :
    retrieveContext (.ok []) c6Search "ক" 10 =
      queryVectors [⟨some (1 / 2), some "কq"⟩] (1 / 10) :=
  (retrieveContext_error_behavior [] c6Search "ক" 10 "index down").2.2
    [⟨some (1 / 2), some "কq"⟩] rfl rfl

/-- Embedding of the groundedness score computation of
`RAGEvaluationService.evaluateGroundedness`: sort the answer-context
similarities descending, average the top `min(3, N)`, boost by 1.2,
clamp at 1, round to 2 decimals.  An empty similarity list corresponds
to the no-context early return with score 0. -/
def groundednessScore (similarities : List ℚ) : ℚ :=
  if similarities.isEmpty then 0
  else
    let sorted := similarities.insertionSort (· ≥ ·)
    let top := sorted.take (min 3 similarities.length)
    let avgTop := top.sum / ((min 3 similarities.length : Nat) : ℚ)
    jsRound2 (min 1 (avgTop * (6 / 5)))

/-- Embedding of the relevance score computation of
`RAGEvaluationService.evaluateRelevance`: average the first 5 search
scores, boost by 1.1, clamp at 1, round to 2 decimals.  An empty score
list corresponds to the no-documents early return with score 0. -/
def relevanceScore (searchScores : List ℚ) : ℚ :=
  if searchScores.isEmpty then 0
  else
    let top := searchScores.take 5
    jsRound2 (min 1 ((top.sum / ((top.length : Nat) : ℚ)) * (11 / 10)))

/-- Rounding to two decimals never pushes a value that is at most 1
above 1. -/
theorem jsRound2_le_one {x : ℚ} (h : x ≤ 1) : jsRound2 x ≤ 1 := by
  unfold jsRound2
  rw [div_le_one (by norm_num)]
  have hf : ⌊x * 100 + 1 / 2⌋ ≤ ⌊(201 : ℚ) / 2⌋ := Int.floor_le_floor (by linarith)
  have h201 : ⌊(201 : ℚ) / 2⌋ = 100 := by norm_num
  rw [h201] at hf
  exact_mod_cast hf

/-- Rounding to two decimals keeps nonnegative values nonnegative. -/
theorem jsRound2_nonneg {x : ℚ} (h : 0 ≤ x) : 0 ≤ jsRound2 x := by
  unfold jsRound2
  apply div_nonneg _ (by norm_num)
  have hf : ⌊(1 : ℚ) / 2⌋ ≤ ⌊x * 100 + 1 / 2⌋ := Int.floor_le_floor (by linarith)
  have h0 : ⌊(1 : ℚ) / 2⌋ = 0 := by norm_num
  rw [h0] at hf
  exact_mod_cast hf

/-- C2 counterexample: for a negative similarity or search score the
returned scores are negative — the lower clamp at 0 the claim asserts
does not exist in the code. -/
theorem evaluation_scores_negative_counterexample :
    groundednessScore [-1] < 0 ∧ relevanceScore [-1] < 0 := by
  constructor
  · have hs : ([-1] : List ℚ).insertionSort (· ≥ ·) = [-1] := by
      simp [List.insertionSort]
    simp only [groundednessScore, hs]
    norm_num [jsRound2]
  · simp only [relevanceScore]
    norm_num [jsRound2]

/-- C2 amended: both scores equal the boosted-and-rounded means clamped
above at 1 and never exceed 1; they are nonnegative whenever every
input similarity or search score is nonnegative, but are not clamped
below 0 for negative inputs. -/
theorem evaluation_scores_clamped (sims scores : List ℚ) :
    groundednessScore sims ≤ 1 ∧ relevanceScore scores ≤ 1 ∧
    ((∀ x ∈ sims, 0 ≤ x) → 0 ≤ groundednessScore sims) ∧
    ((∀ x ∈ scores, 0 ≤ x) → 0 ≤ relevanceScore scores) := by
  refine ⟨?_, ?_, ?_, ?_⟩
  · unfold groundednessScore
    split
    · norm_num
    · exact jsRound2_le_one (min_le_left _ _)
  · unfold relevanceScore
    split
    · norm_num
    · exact jsRound2_le_one (min_le_left _ _)
  · intro hpos
    unfold groundednessScore
    split
    · norm_num
    · apply jsRound2_nonneg
      refine le_min (by norm_num) ?_
      refine mul_nonneg (div_nonneg ?_ (by positivity)) (by norm_num)
      refine List.sum_nonneg fun x hx => ?_
      exact hpos x ((List.mem_insertionSort _).mp (List.mem_of_mem_take hx))
  · intro hpos
    unfold relevanceScore
    split
    · norm_num
    · apply jsRound2_nonneg
      refine le_min (by norm_num) ?_
      refine mul_nonneg (div_nonneg ?_ (by positivity)) (by norm_num)
      refine List.sum_nonneg fun x hx => ?_
      exact hpos x (List.mem_of_mem_take hx)

/-- Witness for C2 amended: at the nonnegative input `[1]` both scores
are within bounds. -/
theorem evaluation_scores_clamped_witness :
    (0 ≤ groundednessScore [1] ∧ groundednessScore [1] ≤ 1) ∧
    (0 ≤ relevanceScore [1] ∧ relevanceScore [1] ≤ 1) :=
  ⟨⟨(evaluation_scores_clamped [1] [1]).2.2.1
      (fun x hx => by rw [List.mem_singleton.mp hx]; norm_num),
    (evaluation_scores_clamped [1] [1]).1⟩,
   ⟨(evaluation_scores_clamped [1] [1]).2.2.2
      (fun x hx => by rw [List.mem_singleton.mp hx]; norm_num),
    (evaluation_scores_clamped [1] [1]).2.1⟩⟩

/-- Relevance evaluation record (`RelevanceEvaluation`). -/
structure RelevanceEvaluation where
  score : ℚ
  explanation : String
  topScores : List ℚ
  averageScore : ℚ
deriving DecidableEq, Repr

/-- Outcome of `retrieveAndEvaluateRelevance`, the retrieval-based
relevance path of `evaluateRAG` (an external interaction embedded as a
value). -/
structure RetrievalEvalOutcome where
  contexts : List String
  relevanceEvaluation : RelevanceEvaluation
  retrievalMetrics : RetrievalMetrics
deriving DecidableEq, Repr

/-- The fixed relevance evaluation for manually provided contexts. -/
def manualRelevanceEvaluation : RelevanceEvaluation :=
  { score := 1
    explanation := "Contexts were manually provided - cannot evaluate retrieval relevance"
    topScores := []
    averageScore := 1 }

/-- Embedding of the context-routing guard of
`RAGEvaluationService.evaluateRAG`: `!contexts || contexts.length === 0`
selects the retrieval path, otherwise the provided contexts with the
fixed relevance evaluation are used. -/
def evaluateRAGContextRouting (contexts : Option (List String))
    (retrieval : RetrievalEvalOutcome) :
    List String × RelevanceEvaluation × RetrievalMetrics :=
  match contexts with
  | none => (retrieval.contexts, retrieval.relevanceEvaluation, retrieval.retrievalMetrics)
  | some l =>
    if l.length = 0 then
      (retrieval.contexts, retrieval.relevanceEvaluation, retrieval.retrievalMetrics)
    else
      (l, manualRelevanceEvaluation,
        { totalRetrieved := l.length, aboveThreshold := l.length, averageSimilarity := 1 })

/-- C10: an empty provided context list is routed exactly like an
omitted one (retrieval-based evaluation), and the fixed 1.0 relevance
with the manually-provided caveat is produced only for a non-empty
provided list. -/
theorem evaluateRAG_empty_contexts_routing (retrieval : RetrievalEvalOutcome)
    (c : String) (cs : List String) :
    evaluateRAGContextRouting none retrieval =
      (retrieval.contexts, retrieval.relevanceEvaluation, retrieval.retrievalMetrics) ∧
    evaluateRAGContextRouting (some []) retrieval =
      (retrieval.contexts, retrieval.relevanceEvaluation, retrieval.retrievalMetrics) ∧
    evaluateRAGContextRouting (some (c :: cs)) retrieval =
      (c :: cs, manualRelevanceEvaluation,
        { totalRetrieved := (c :: cs).length, aboveThreshold := (c :: cs).length,
          averageSimilarity := 1 }) := by
  refine ⟨rfl, rfl, ?_⟩
  simp [evaluateRAGContextRouting]

/-- Sum of squares `a.reduce((sum, val) => sum + val * val, 0)`. -/
def sumSq (l : List ℝ) : ℝ :=
  (l.map fun x => x * x).sum

/-- Dot product `a.reduce((sum, val, i) => sum + val * b[i], 0)`
(evaluated only when the lengths match). -/
def dotProduct (a b : List ℝ) : ℝ :=
  (List.zipWith (· * ·) a b).sum

/-- Embedding of `Math.sqrt(...)`-based vector magnitude. -/
noncomputable def magnitude (l : List ℝ) : ℝ :=
  Real.sqrt (sumSq l)

/-- Embedding of `cosineSimilarity` from src/app/api/chat/route.ts and
src/app/api/evaluate/route.ts: mismatched lengths and zero magnitudes
return 0, otherwise the normalized dot product. -/
noncomputable def cosineSimilarity (a b : List ℝ) : ℝ :=
  if a.length ≠ b.length then 0
  else if magnitude a = 0 ∨ magnitude b = 0 then 0
  else dotProduct a b / (magnitude a * magnitude b)

/-- A sum of squares is nonnegative. -/
theorem sumSq_nonneg (l : List ℝ) : 0 ≤ sumSq l := by
  refine List.sum_nonneg fun x hx => ?_
  rcases List.mem_map.mp hx with ⟨y, _, rfl⟩
  exact mul_self_nonneg y

/-- Cauchy–Schwarz for the list dot product. -/
theorem dotProduct_sq_le (a : List ℝ) : ∀ b : List ℝ,
    dotProduct a b ^ 2 ≤ sumSq a * sumSq b := by
  induction a with
  | nil =>
    intro b
    simp [dotProduct, sumSq]
  | cons x as ih =>
    intro b
    cases b with
    | nil =>
      simp [dotProduct, sumSq]
    | cons y bs =>
      have h := ih bs
      have hA : 0 ≤ sumSq as := sumSq_nonneg as
      have hB : 0 ≤ sumSq bs := sumSq_nonneg bs
      have ha : dotProduct (x :: as) (y :: bs) = x * y + dotProduct as bs := by
        simp [dotProduct]
      have hsa : sumSq (x :: as) = x * x + sumSq as := by
        simp [sumSq]
      have hsb : sumSq (y :: bs) = y * y + sumSq bs := by
        simp [sumSq]
      rw [ha, hsa, hsb]
      rcases eq_or_lt_of_le hB with hB0 | hBpos
      · have hd2 : dotProduct as bs ^ 2 = 0 := by
          refine le_antisymm ?_ (sq_nonneg _)
          calc dotProduct as bs ^ 2 ≤ sumSq as * sumSq bs := h
          _ = 0 := by rw [← hB0, mul_zero]
        have hd0 : dotProduct as bs = 0 := by
          exact pow_eq_zero_iff (by norm_num) |>.mp hd2
        rw [hd0, ← hB0]
        nlinarith [mul_nonneg hA (mul_self_nonneg y)]
      · nlinarith [sq_nonneg (x * sumSq bs - y * dotProduct as bs),
          mul_nonneg (mul_self_nonneg y) (sub_nonneg.mpr h),
          mul_nonneg hB (sub_nonneg.mpr h)]

/-- The dot product of a list with itself is its sum of squares. -/
theorem dotProduct_self (a : List ℝ) : dotProduct a a = sumSq a := by
  induction a with
  | nil => simp [dotProduct, sumSq]
  | cons x as ih => simp [dotProduct, sumSq, ih]

/-- C8: `cosineSimilarity` is total — mismatched lengths and zero
magnitudes give exactly 0, every value lies in `[-1, 1]`, and the
similarity of a non-zero vector with itself is 1. -/
theorem cosineSimilarity_total_and_bounded (a b : List ℝ) :
    (a.length ≠ b.length → cosineSimilarity a b = 0) ∧
    (magnitude a = 0 ∨ magnitude b = 0 → cosineSimilarity a b = 0) ∧
    (-1 ≤ cosineSimilarity a b ∧ cosineSimilarity a b ≤ 1) ∧
    (sumSq a ≠ 0 → cosineSimilarity a a = 1) := by
  refine ⟨fun h => ?_, fun h => ?_, ?_, fun h => ?_⟩
  · simp [cosineSimilarity, h]
  · by_cases hl : a.length ≠ b.length
    · simp [cosineSimilarity, hl]
    · simp [cosineSimilarity, hl, h]
  · by_cases hl : a.length ≠ b.length
    · constructor <;> simp [cosineSimilarity, hl]
    · by_cases hm : magnitude a = 0 ∨ magnitude b = 0
      · constructor <;> simp [cosineSimilarity, hl, hm]
      · push_neg at hm
        have hpa : 0 < magnitude a :=
          lt_of_le_of_ne (Real.sqrt_nonneg _) (Ne.symm hm.1)
        have hpb : 0 < magnitude b :=
          lt_of_le_of_ne (Real.sqrt_nonneg _) (Ne.symm hm.2)
        have hprod : 0 < magnitude a * magnitude b := mul_pos hpa hpb
        have hsq : dotProduct a b ^ 2 ≤ (magnitude a * magnitude b) ^ 2 := by
          have : (magnitude a * magnitude b) ^ 2 = sumSq a * sumSq b := by
            rw [mul_pow]
            unfold magnitude
            rw [Real.sq_sqrt (sumSq_nonneg a), Real.sq_sqrt (sumSq_nonneg b)]
          rw [this]
          exact dotProduct_sq_le a b
        have habs : |dotProduct a b| ≤ magnitude a * magnitude b := by
          have h1 := Real.sqrt_le_sqrt hsq
          rwa [Real.sqrt_sq_eq_abs, Real.sqrt_sq hprod.le] at h1
        rcases abs_le.mp habs with ⟨hlo, hhi⟩
        have heq : cosineSimilarity a b = dotProduct a b / (magnitude a * magnitude b) := by
          simp [cosineSimilarity, hl]
          intro hc
          rcases hc with hc | hc
          · exact absurd hc hm.1
          · exact absurd hc hm.2
        rw [heq]
        constructor
        · rw [neg_le, ← neg_div]
          rw [div_le_one hprod]
          linarith
        · rw [div_le_one hprod]
          exact hhi
  · have hpos : 0 < sumSq a := lt_of_le_of_ne (sumSq_nonneg a) (Ne.symm h)
    have hmag : magnitude a ≠ 0 := by
      unfold magnitude
      rw [ne_eq, Real.sqrt_eq_zero (sumSq_nonneg a)]
      exact h
    have heq : cosineSimilarity a a = dotProduct a a / (magnitude a * magnitude a) := by
      simp [cosineSimilarity]
      intro hc
      exact absurd hc hmag
    rw [heq, dotProduct_self]
    unfold magnitude
    rw [Real.mul_self_sqrt (sumSq_nonneg a)]
    exact div_self h

/-- Witness for C8: the three degenerate and exact cases at concrete
vectors. -/
theorem cosineSimilarity_witness :
    cosineSimilarity [(1 : ℝ)] [1, 0] = 0 ∧
    cosineSimilarity [(0 : ℝ), 0] [1, 1] = 0 ∧
    cosineSimilarity [(1 : ℝ)] [1] = 1 :=
  ⟨(cosineSimilarity_total_and_bounded [(1 : ℝ)] [1, 0]).1 (by simp),
   (cosineSimilarity_total_and_bounded [(0 : ℝ), 0] [1, 1]).2.1
     (Or.inl (by simp [magnitude, sumSq])),
   (cosineSimilarity_total_and_bounded [(1 : ℝ)] [1]).2.2.2 (by norm_num [sumSq])⟩

/-- Outcome of one `describeIndex` (or `listIndexes`) poll: ready,
not yet ready, or a thrown error (which the loops treat like not
ready). -/
inductive PollResult where
  | ready
  | notReady
  | errored
deriving DecidableEq, Repr

/-- Embedding of the `while (!isReady)` loop of the create-index
handler bundled with src/app/api/evaluate/route.ts: there is no attempt
cap; the fuel argument indexes a finite unfolding of the loop, and
`none` means the loop has not exited within `fuel` iterations.  The
loop exits only when a poll reports ready. -/
def createIndexWaitLoop (poll : Nat → PollResult) : Nat → Nat → Option Nat
  | 0, _ => none
  | fuel + 1, attempt =>
    if poll attempt = .ready then some attempt
    else createIndexWaitLoop poll fuel (attempt + 1)

/-- Embedding of the capped polling loops of
src/app/api/recreate-index/route.ts
(`while (!done && attempts < cap)` followed by a thrown timeout error):
`remaining` is `cap - attempts`; a poll that throws is caught and
counted like a not-ready poll. -/
def boundedWaitFrom (poll : Nat → PollResult) (timeoutMsg : String) :
    Nat → Nat → Except String Nat
  | 0, _ => .error timeoutMsg
  | remaining + 1, attempts =>
    match poll attempts with
    | .ready => .ok attempts
    | _ => boundedWaitFrom poll timeoutMsg remaining (attempts + 1)

/-- The recreate-route index-readiness wait: at most 60 attempts, then
the fatal "Index creation timed out" error. -/
def recreateIndexReadyWait (poll : Nat → PollResult) : Except String Nat :=
  boundedWaitFrom poll "Index creation timed out" 60 0

/-- The recreate-route index-deletion wait: at most 30 attempts, then
the fatal "Index deletion timed out" error. -/
def recreateIndexDeleteWait (poll : Nat → PollResult) : Except String Nat :=
  boundedWaitFrom poll "Index deletion timed out" 30 0

/-- A capped wait always times out with its fatal error when readiness
is never observed. -/
theorem boundedWaitFrom_times_out (poll : Nat → PollResult) (msg : String)
    (h : ∀ n, poll n ≠ .ready) :
    ∀ remaining attempts, boundedWaitFrom poll msg remaining attempts = .error msg := by
  intro remaining
  induction remaining with
  | zero => intro attempts; rfl
  | succ k ih =>
    intro attempts
    simp only [boundedWaitFrom]
    cases hp : poll attempts with
    | ready => exact absurd hp (h attempts)
    | notReady => exact ih (attempts + 1)
    | errored => exact ih (attempts + 1)

/-- C7: when readiness is never observed, the recreate-index loops
terminate with their documented fatal timeout errors within their
attempt caps, but the create-index readiness loop never exits — no
finite unfolding of it completes, for any starting attempt. -/
theorem index_wait_loops_behavior (poll : Nat → PollResult)
    (h : ∀ n, poll n ≠ .ready) :
    (∀ fuel attempt, createIndexWaitLoop poll fuel attempt = none) ∧
    recreateIndexReadyWait poll = .error "Index creation timed out" ∧
    recreateIndexDeleteWait poll = .error "Index deletion timed out" := by
  refine ⟨?_, boundedWaitFrom_times_out poll _ h 60 0, boundedWaitFrom_times_out poll _ h 30 0⟩
  intro fuel
  induction fuel with
  | zero => intro attempt; rfl
  | succ k ih =>
    intro attempt
    simp only [createIndexWaitLoop, h attempt, if_neg]
    exact ih (attempt + 1)

/-- Witness for C7: with every poll reporting not-ready, five
unfoldings of the create-index loop do not exit and both recreate
loops report their timeout errors. -/
theorem index_wait_loops_behavior_witness :
    createIndexWaitLoop (fun _ => .notReady) 5 0 = none ∧
    recreateIndexReadyWait (fun _ => .notReady) = .error "Index creation timed out" ∧
    recreateIndexDeleteWait (fun _ => .notReady) = .error "Index deletion timed out" := by
  have hne : PollResult.notReady ≠ PollResult.ready := by decide
  exact ⟨(index_wait_loops_behavior (fun _ => .notReady) fun _ => hne).1 5 0,
    (index_wait_loops_behavior (fun _ => .notReady) fun _ => hne).2.1,
    (index_wait_loops_behavior (fun _ => .notReady) fun _ => hne).2.2⟩

/-- A page range (`PageRange`); the source field `end` is a Lean
keyword and is embedded as `stop`. -/
structure PageRange where
  start : Int
  stop : Int
deriving DecidableEq, Repr

/-- A converted page image (`PDFImage`). -/
structure PDFImage where
  page : Int
  imagePath : String
deriving DecidableEq, Repr

/-- Outcome of one `convert(pageNum)` call: a result with a path, a
result without a path (skipped), or a thrown error (logged and
skipped). -/
inductive ConvertOutcome where
  | ok (path : String)
  | noPath
  | failed
deriving DecidableEq, Repr

/-- The pages visited by `for (pageNum = start; pageNum <= end; pageNum++)`. -/
def rangePages (r : PageRange) : List Int :=
  (List.range (r.stop + 1 - r.start).toNat).map fun (i : Nat) => r.start + (i : Int)

/-- One range's contribution to the image list: convert each page,
keep results that have a path, skip failures. -/
def convertRange (conv : Int → ConvertOutcome) (r : PageRange) : List PDFImage :=
  (rangePages r).filterMap fun p =>
    match conv p with
    | .ok path => some ⟨p, path⟩
    | _ => none

/-- Comparator key of `images.sort((a, b) => a.page - b.page)`. -/
def pageLE (a b : PDFImage) : Prop :=
  a.page ≤ b.page

instance : DecidableRel pageLE := fun a b => Int.decLe a.page b.page

instance : IsTotal PDFImage pageLE :=
  ⟨fun a b => Int.le_total a.page b.page⟩

instance : IsTrans PDFImage pageLE :=
  ⟨fun _ _ _ h1 h2 => Int.le_trans h1 h2⟩

/-- Embedding of the `pageRanges` branch of
`PDFConverterService.convertPdfToImages` (identical in
src/lib/pdf-ocr-utils.ts): convert every page of every range in order,
skip pages whose conversion fails or yields no path, and return the
images sorted by page number ascending. -/
def convertPdfToImagesRanges (conv : Int → ConvertOutcome) (ranges : List PageRange) :
    List PDFImage :=
  (ranges.flatMap (convertRange conv)).insertionSort pageLE

/-- C9 counterexample: overlapping ranges convert the shared page once
per range and the returned sequence lists it once per range — pages are
not de-duplicated to the union. -/
theorem convert_overlapping_ranges_counterexample :
    ((convertPdfToImagesRanges (fun _ => .ok "img.png") [⟨1, 2⟩, ⟨2, 3⟩]).map (·.page) =
      [1, 2, 2, 3]) ∧
    ¬ ((convertPdfToImagesRanges (fun _ => .ok "img.png") [⟨1, 2⟩, ⟨2, 3⟩]).map
        (·.page)).Nodup := by
  constructor
  · decide
  · decide

/-- Characterization of the pages visited by a range's for-loop. -/
theorem mem_rangePages {r : PageRange} {p : Int} :
    p ∈ rangePages r ↔ r.start ≤ p ∧ p ≤ r.stop := by
  simp only [rangePages, List.mem_map, List.mem_range]
  constructor
  · rintro ⟨i, hi, rfl⟩
    omega
  · rintro ⟨h1, h2⟩
    exact ⟨(p - r.start).toNat, by omega, by omega⟩

/-- A range's page list has no duplicates. -/
theorem rangePages_nodup (r : PageRange) : (rangePages r).Nodup := by
  unfold rangePages
  apply List.Nodup.map
  · intro a b hab
    simp only at hab
    omega
  · exact List.nodup_range _

/-- Counting after a `filterMap`. -/
theorem countP_filterMap {α β : Type} (f : α → Option β) (q : β → Bool) (l : List α) :
    (l.filterMap f).countP q = l.countP fun a => ((f a).map q).getD false := by
  induction l with
  | nil => rfl
  | cons a rest ih =>
    cases hf : f a <;>
      simp [List.filterMap_cons, hf, List.countP_cons, ih]

/-- Counting a conjunction with an equality test singles out one
value. -/
theorem countP_beq_and {l : List Int} {p : Int} {B : Int → Bool} :
    (l.countP fun a => (a == p) && B a) = if B p then l.count p else 0 := by
  induction l with
  | nil => simp
  | cons a rest ih =>
    by_cases hap : a = p
    · subst hap
      cases hB : B a <;>
        simp [List.countP_cons, List.count_cons, ih, hB]
    · have hne : (a == p) = false := beq_false_of_ne hap
      cases hB : B p <;>
        simp [List.countP_cons, List.count_cons, ih, hB, hne, hap]

/-- Whether `convert(p)` yields a usable image. -/
def convOk (conv : Int → ConvertOutcome) (p : Int) : Bool :=
  match conv p with
  | .ok _ => true
  | _ => false

/-- Page multiplicity contributed by a single range. -/
theorem countP_convertRange (conv : Int → ConvertOutcome) (r : PageRange) (p : Int) :
    ((convertRange conv r).countP fun img => img.page == p) =
      if convOk conv p then (if r.start ≤ p ∧ p ≤ r.stop then 1 else 0) else 0 := by
  unfold convertRange
  rw [countP_filterMap]
  have hpred : (fun a => ((match conv a with
      | .ok path => some (⟨a, path⟩ : PDFImage)
      | _ => none).map fun (img : PDFImage) => img.page == p).getD false) =
      fun a => (a == p) && convOk conv a := by
    funext a
    cases hca : conv a <;> simp [convOk, hca]
  rw [hpred, countP_beq_and]
  by_cases hc : convOk conv p = true
  · rw [if_pos hc, if_pos hc]
    by_cases hin : r.start ≤ p ∧ p ≤ r.stop
    · rw [if_pos hin]
      exact List.count_eq_one_of_mem (rangePages_nodup r) (mem_rangePages.mpr hin)
    · rw [if_neg hin]
      exact List.count_eq_zero_of_not_mem fun hm => hin (mem_rangePages.mp hm)
  · rw [if_neg hc, if_neg hc]

/-- Page multiplicity of the whole conversion. -/
theorem countP_convertPdfToImagesRanges (conv : Int → ConvertOutcome)
    (ranges : List PageRange) (p : Int) :
    ((convertPdfToImagesRanges conv ranges).countP fun img => img.page == p) =
      if convOk conv p then
        ranges.countP fun r => decide (r.start ≤ p) && decide (p ≤ r.stop)
      else 0 := by
  unfold convertPdfToImagesRanges
  rw [(List.perm_insertionSort pageLE _).countP_eq]
  induction ranges with
  | nil => simp
  | cons r rest ih =>
    rw [List.flatMap_cons, List.countP_append, countP_convertRange, ih, List.countP_cons]
    by_cases hc : convOk conv p = true
    · simp only [hc, if_pos]
      by_cases hin : r.start ≤ p ∧ p ≤ r.stop
      · simp [hin, Nat.add_comm]
      · rw [if_neg hin]
        have : (decide (r.start ≤ p) && decide (p ≤ r.stop)) = false := by
          rcases not_and_or.mp hin with h | h <;> simp [h]
        simp [this]
    · simp only [Bool.not_eq_true] at hc
      simp [hc]

/-- C9 amended: with a non-empty `pageRanges` list the converter visits
each range's pages in order (a page covered by several ranges is
converted and returned once per covering range), returns the images
sorted by page ascending, records only successful conversions (each
returned image carries its page's conversion result and lies in some
requested range), and skips failed pages without aborting. -/
theorem convertPdfToImages_sorted_provenance_multiplicity
    (conv : Int → ConvertOutcome) (ranges : List PageRange) (p : Int) (path : String) :
    ((convertPdfToImagesRanges conv ranges).map (·.page)).Pairwise (· ≤ ·) ∧
    (∀ img ∈ convertPdfToImagesRanges conv ranges,
      conv img.page = .ok img.imagePath ∧
      ∃ r ∈ ranges, r.start ≤ img.page ∧ img.page ≤ r.stop) ∧
    (conv p = .ok path →
      ((convertPdfToImagesRanges conv ranges).countP fun img => img.page == p) =
        ranges.countP fun r => decide (r.start ≤ p) && decide (p ≤ r.stop)) ∧
    (conv p = .failed →
      ((convertPdfToImagesRanges conv ranges).countP fun img => img.page == p) = 0) := by
  refine ⟨?_, ?_, fun hok => ?_, fun hfail => ?_⟩
  · have hs : List.Sorted pageLE (convertPdfToImagesRanges conv ranges) :=
      List.sorted_insertionSort pageLE _
    exact List.pairwise_map.mpr hs
  · intro img hmem
    have hmem2 : img ∈ ranges.flatMap (convertRange conv) :=
      (List.mem_insertionSort pageLE).mp hmem
    rcases List.mem_flatMap.mp hmem2 with ⟨r, hr, hir⟩
    rcases List.mem_filterMap.mp hir with ⟨q, hq, hconv⟩
    have : conv img.page = .ok img.imagePath ∧ q = img.page := by
      cases hcq : conv q <;> rw [hcq] at hconv
      · rcases Option.some.inj hconv with rfl
        exact ⟨hcq, rfl⟩
      · cases hconv
      · cases hconv
    rcases this with ⟨h1, rfl⟩
    exact ⟨h1, r, hr, mem_rangePages.mp hq⟩
  · rw [countP_convertPdfToImagesRanges]
    have : convOk conv p = true := by simp [convOk, hok]
    rw [if_pos this]
  · rw [countP_convertPdfToImagesRanges]
    have : convOk conv p = false := by simp [convOk, hfail]
    simp [this]

/-- Witness for C9 amended: a concrete conversion where page 5 fails
and page 2 is covered by two overlapping ranges. -/
theorem convertPdfToImages_sorted_provenance_multiplicity_witness :
    ((convertPdfToImagesRanges (fun q => if q = 5 then .failed else .ok "img")
        [⟨1, 2⟩, ⟨2, 3⟩]).countP fun img => img.page == 2) =
      (([⟨1, 2⟩, ⟨2, 3⟩] : List PageRange).countP fun r =>
        decide (r.start ≤ 2) && decide (2 ≤ r.stop)) ∧
    ((convertPdfToImagesRanges (fun q => if q = 5 then .failed else .ok "img")
        [⟨4, 6⟩]).countP fun img => img.page == 5) = 0 :=
  ⟨(convertPdfToImages_sorted_provenance_multiplicity
      (fun q => if q = 5 then .failed else .ok "img") [⟨1, 2⟩, ⟨2, 3⟩] 2 "img").2.2.1 rfl,
   (convertPdfToImages_sorted_provenance_multiplicity
      (fun q => if q = 5 then .failed else .ok "img") [⟨4, 6⟩] 5 "img").2.2.2 rfl⟩

